import Mathlib

set_option linter.unusedVariables false

/-! Shallow embedding of the unmute frontend core (chatHistory.ts, tools.ts and
the Unmute component): the chat-history data model and its merge view, the
localStorage-backed persistence and memory snapshots, the tool dispatcher and
the response.done / error-envelope handling of the session orchestrator. -/

/-- JSON values, the runtime shape produced by the JavaScript builtins
JSON.parse and JSON.stringify. Numbers are modelled as integers; no claim
computes with numeric payloads. -/
inductive Json where
  | null
  | bool (b : Bool)
  | num (n : Int)
  | str (s : String)
  | arr (elems : List Json)
  | obj (fields : List (String × Json))

/-- A JavaScript exception: either an Error carrying a message, or a thrown
non-Error value (the source distinguishes the two in its catch blocks). -/
inductive JsExn where
  | jsError (msg : String)
  | nonError
deriving DecidableEq

/-- Truthiness of a JavaScript `string | null` value: null and the empty
string are falsy, every other string is truthy. -/
def jsTruthyStr : Option String → Bool
  | none => false
  | some s => !(s == "")

/-- The WhiteSpace and LineTerminator characters recognised by the JavaScript
String.prototype.trimStart. -/
def jsWhitespace (c : Char) : Bool :=
  c = ' ' || c = '\t' || c = '\n' || c = '\r' || c = '\x0b' || c = '\x0c' ||
  c = ' ' || c = ' ' || c = ' ' || c = ' ' || c = ' ' ||
  c = ' ' || c = ' ' || c = ' ' || c = ' ' || c = ' ' ||
  c = ' ' || c = ' ' || c = ' ' || c = ' ' || c = ' ' ||
  c = ' ' || c = ' ' || c = '　' || c = '﻿'

/-- The JavaScript String.prototype.trimStart: drop leading whitespace. -/
def jsTrimStart (s : String) : String :=
  ⟨s.data.dropWhile jsWhitespace⟩

/-- The JavaScript s.startsWith(p) test, modelled on the character data. -/
def strStartsWith (s p : String) : Bool :=
  p.data.isPrefixOf s.data

/-- Dropping the first n characters of a string (used to model
key.replace(prefix, "") on a key that starts with the prefix). -/
def strDrop (s : String) (n : Nat) : String :=
  ⟨s.data.drop n⟩

/-- The length of a string in characters. -/
def strLength (s : String) : Nat :=
  s.data.length

/-- ChatRole from chatHistory.ts: "user" | "assistant" | "system" | "tool". -/
inductive ChatRole where
  | user
  | assistant
  | system
  | tool
deriving DecidableEq

/-- The function field of a ToolCall: name and the serialized arguments. -/
structure ToolCallFunction where
  name : String
  arguments : String
deriving DecidableEq

/-- ToolCall from chatHistory.ts. The tag field is the constant "function" in
the source and is therefore omitted from the embedding. -/
structure ToolCall where
  id : String
  function : ToolCallFunction
deriving DecidableEq

/-- ChatMessage from chatHistory.ts: role, nullable content, and the optional
tool_calls / tool_call_id fields. -/
structure ChatMessage where
  role : ChatRole
  content : Option String
  tool_calls : Option (List ToolCall)
  tool_call_id : Option String
deriving DecidableEq

/-- Pushing a non-merged message in compressChatHistory: the source runs
message.content = message.content.trimStart() when the content is a string and
then pushes a copy of the message. -/
def pushFresh (message : ChatMessage) : ChatMessage :=
  match message.content with
  | some s => { message with content := some (jsTrimStart s) }
  | none => message

/-- The loop of compressChatHistory, with cur the last element of the
compressed array. The merge guard is the source condition
compressed.last.role === message.role && message.content &&
compressed.last.content, and merging appends separator + message.content onto
the accumulated content. -/
def compressGo (separator : String) (cur : ChatMessage) :
    List ChatMessage → List ChatMessage
  | [] => [cur]
  | message :: rest =>
    if cur.role == message.role && jsTruthyStr message.content &&
        jsTruthyStr cur.content then
      compressGo separator
        { cur with
          content := some
            (cur.content.getD "" ++ separator ++ message.content.getD "") }
        rest
    else
      cur :: compressGo separator (pushFresh message) rest

/-- compressChatHistory from chatHistory.ts: fold consecutive same-role turns
with truthy content into one turn, concatenating contents with the
separator. -/
def compressChatHistory (chatHistory : List ChatMessage) (separator : String) :
    List ChatMessage :=
  match chatHistory with
  | [] => []
  | message :: rest => compressGo separator (pushFresh message) rest

/-- Joining a list of strings onto an initial string with a separator, exactly
as the merge loop accumulates: acc, then acc ++ separator ++ c for each c. -/
def joinWithSep (separator : String) (acc : String) : List String → String
  | [] => acc
  | c :: cs => joinWithSep separator (acc ++ separator ++ c) cs

/-- A string value held in localStorage, classified by what JSON.parse does to
it: either a string that fails to parse, or one that parses to a JSON value.
JSON.parse (stored on a string layer in the browser) is a builtin; this
classification is its observable behaviour on a stored value. -/
inductive StoredString where
  | invalid (s : String)
  | jsonVal (j : Json)

/-- Truthiness of a stored string: the empty (unparsable) string is falsy;
any string that parses to JSON is nonempty, hence truthy. -/
def jsTruthyStored : StoredString → Bool
  | .invalid s => !(s == "")
  | .jsonVal _ => true

/-- The browser localStorage: an insertion-ordered list of key/value entries
with unique keys, enumerable by index as localStorage.key(i) does. -/
def Storage : Type := List (String × StoredString)

/-- localStorage.getItem: the value at the first entry with the key, if any. -/
def getItem (st : Storage) (k : String) : Option StoredString :=
  match st with
  | [] => none
  | (k', v) :: rest => if k' == k then some v else getItem rest k

/-- localStorage.setItem: overwrite the entry in place if the key is present,
otherwise append a new entry. -/
def setItem (st : Storage) (k : String) (v : StoredString) : Storage :=
  match st with
  | [] => [(k, v)]
  | (k', v') :: rest =>
    if k' == k then (k, v) :: rest else (k', v') :: setItem rest k v

/-- localStorage.removeItem: drop the entry with the key. -/
def removeItem (st : Storage) (k : String) : Storage :=
  match st with
  | [] => []
  | (k', v') :: rest =>
    if k' == k then rest else (k', v') :: removeItem rest k

/-- getStorageKey from chatHistory.ts: the live history key for a voice. -/
def getStorageKey (voiceName : String) : String :=
  "chatHistory_" ++ voiceName

/-- Serialization of a ChatRole as JSON.stringify renders it. -/
def encodeRole : ChatRole → String
  | .user => "user"
  | .assistant => "assistant"
  | .system => "system"
  | .tool => "tool"

/-- Serialization of a ToolCall as JSON.stringify renders it, with the
constant tag field "function". -/
def encodeToolCall (tc : ToolCall) : Json :=
  .obj [("id", .str tc.id), ("type", .str "function"),
    ("function", .obj [("name", .str tc.function.name),
      ("arguments", .str tc.function.arguments)])]

/-- Serialization of a ChatMessage as JSON.stringify renders it: null content
becomes JSON null, and the optional fields are omitted when undefined. -/
def encodeChatMessage (m : ChatMessage) : Json :=
  .obj ([("role", .str (encodeRole m.role)),
    ("content", match m.content with | some s => .str s | none => .null)] ++
    (match m.tool_calls with
     | some tcs => [("tool_calls", .arr (tcs.map encodeToolCall))]
     | none => []) ++
    (match m.tool_call_id with
     | some s => [("tool_call_id", .str s)]
     | none => []))

/-- The inverse reading of encodeRole, used to state that a loaded history
determines the saved one. -/
def decodeRole : String → Option ChatRole
  | "user" => some .user
  | "assistant" => some .assistant
  | "system" => some .system
  | "tool" => some .tool
  | _ => none

/-- The inverse reading of encodeToolCall. -/
def decodeToolCall : Json → Option ToolCall
  | .obj [("id", .str i), ("type", .str "function"),
      ("function", .obj [("name", .str n), ("arguments", .str a)])] =>
    some { id := i, function := { name := n, arguments := a } }
  | _ => none

/-- The inverse reading of the nullable content field. -/
def decodeContent : Json → Option (Option String)
  | .str s => some (some s)
  | .null => some none
  | _ => none

/-- The inverse reading of a list of encoded tool calls. -/
def decodeToolCalls : List Json → Option (List ToolCall)
  | [] => some []
  | j :: js => do
    let tc ← decodeToolCall j
    let rest ← decodeToolCalls js
    pure (tc :: rest)

/-- The inverse reading of encodeChatMessage, matching the four field layouts
the encoder can produce. -/
def decodeChatMessage : Json → Option ChatMessage
  | .obj [("role", .str r), ("content", c)] => do
    let role ← decodeRole r
    let content ← decodeContent c
    pure ({ role := role, content := content,
            tool_calls := none, tool_call_id := none } : ChatMessage)
  | .obj [("role", .str r), ("content", c), ("tool_calls", .arr tcs)] => do
    let role ← decodeRole r
    let content ← decodeContent c
    let calls ← decodeToolCalls tcs
    pure ({ role := role, content := content,
            tool_calls := some calls, tool_call_id := none } : ChatMessage)
  | .obj [("role", .str r), ("content", c), ("tool_call_id", .str i)] => do
    let role ← decodeRole r
    let content ← decodeContent c
    pure ({ role := role, content := content,
            tool_calls := none, tool_call_id := some i } : ChatMessage)
  | .obj [("role", .str r), ("content", c), ("tool_calls", .arr tcs),
      ("tool_call_id", .str i)] => do
    let role ← decodeRole r
    let content ← decodeContent c
    let calls ← decodeToolCalls tcs
    pure ({ role := role, content := content,
            tool_calls := some calls, tool_call_id := some i } : ChatMessage)
  | _ => none

/-- The inverse reading of an encoded history, element by element. -/
def decodeHistory : List Json → Option (List ChatMessage)
  | [] => some []
  | j :: js => do
    let m ← decodeChatMessage j
    let rest ← decodeHistory js
    pure (m :: rest)

/-- saveChatHistory from chatHistory.ts: store JSON.stringify(chatHistory)
under the voice's live key. -/
def saveChatHistory (chatHistory : List ChatMessage) (voiceName : String)
    (st : Storage) : Storage :=
  setItem st (getStorageKey voiceName)
    (.jsonVal (.arr (chatHistory.map encodeChatMessage)))

/-- The body of loadChatHistory applied to the fetched item: a falsy item
(absent or empty) gives [], a JSON.parse failure is caught and gives [], a
parsed non-array gives [], and a parsed array is returned as is (the source
casts the parsed elements without validating them, so the runtime result is
the list of parsed JSON values). -/
def parseHistoryVal : Option StoredString → List Json
  | none => []
  | some sv =>
    if jsTruthyStored sv then
      match sv with
      | .invalid _ => []
      | .jsonVal j =>
        match j with
        | .arr elems => elems
        | _ => []
    else []

/-- loadChatHistory from chatHistory.ts. -/
def loadChatHistory (voiceName : String) (st : Storage) : List Json :=
  parseHistoryVal (getItem st (getStorageKey voiceName))

/-- The shared prefix of the memory-snapshot keys of a voice. -/
def memoryKeyBase (voiceName : String) : String :=
  "chatHistory_" ++ voiceName ++ "_memory_"

/-- The memory-snapshot key for a voice and a timestamp. -/
def memoryKey (voiceName timestamp : String) : String :=
  memoryKeyBase voiceName ++ timestamp

/-- saveMemory from chatHistory.ts: copy the live serialized history, when
present and truthy, into the timestamp-keyed slot. The timestamp the source
takes from new Date().toISOString() is a parameter here. -/
def saveMemory (voiceName timestamp : String) (st : Storage) : Storage :=
  match getItem st (getStorageKey voiceName) with
  | some cur =>
    if jsTruthyStored cur then setItem st (memoryKey voiceName timestamp) cur
    else st
  | none => st

/-- Lexicographic comparison of character sequences by code point, the order
in which JavaScript's default Array.prototype.sort compares strings. -/
def listLeB : List Char → List Char → Bool
  | [], _ => true
  | _ :: _, [] => false
  | a :: as, b :: bs =>
    if a = b then listLeB as bs else decide (a.toNat < b.toNat)

/-- The JavaScript default string comparison s <= t used by sort(). -/
def jsStrLe (s t : String) : Bool :=
  listLeB s.data t.data

/-- Inserting a string into a sorted list under jsStrLe. -/
def orderedInsertB (a : String) : List String → List String
  | [] => [a]
  | b :: l => if jsStrLe a b then a :: b :: l else b :: orderedInsertB a l

/-- Insertion sort under jsStrLe, modelling Array.prototype.sort with no
comparator (any comparison sort yields this result under a total order on
distinct keys). -/
def insertionSortB : List String → List String
  | [] => []
  | a :: l => orderedInsertB a (insertionSortB l)

/-- getMemoryList from chatHistory.ts: scan all storage keys, keep those with
the voice's memory-key prefix, strip the prefix, sort ascending and reverse,
giving the timestamps newest first. -/
def getMemoryList (voiceName : String) (st : Storage) : List String :=
  (insertionSortB
    (((st.map Prod.fst).filter
        (fun k => strStartsWith k (memoryKeyBase voiceName))).map
      (fun k => strDrop k (strLength (memoryKeyBase voiceName))))).reverse

/-- loadMemory from chatHistory.ts: copy the slot content, when present and
truthy, over the live key. -/
def loadMemory (voiceName timestamp : String) (st : Storage) : Storage :=
  match getItem st (memoryKey voiceName timestamp) with
  | some mem =>
    if jsTruthyStored mem then setItem st (getStorageKey voiceName) mem
    else st
  | none => st

/-- clearChatHistory from chatHistory.ts: remove the live key only. -/
def clearChatHistory (voiceName : String) (st : Storage) : Storage :=
  removeItem st (getStorageKey voiceName)

/-- The JavaScript builtins and external capabilities tools.ts calls into:
JSON.parse on the arguments string, and the four capability functions (which
perform network requests and may throw). An Except value is a computation
that either returns or throws. -/
structure JsEnv where
  jsonParse : String → Except JsExn Json
  getWeather : Json → Except JsExn Json
  getCoordinates : Json → Except JsExn Json
  getNews : Json → Except JsExn Json
  getNewsSources : Json → Except JsExn Json

/-- The expression call.arguments || "\x7b\x7d": an empty (falsy) arguments
string is replaced by the literal text of an empty JSON object. -/
def argumentsOrEmptyObj (a : String) : String :=
  if a == "" then "\x7b\x7d" else a

/-- The structured error value both dispatchers return: an object with a
single error field carrying the message. -/
def errObj (msg : String) : Json :=
  .obj [("error", .str msg)]

/-- The catch block shared by both dispatchers: an Error yields its message,
a non-Error yields the fixed unknown-error text. -/
def catchMessage : JsExn → String
  | .jsError msg => msg
  | .nonError => "An unknown error occurred."

/-- The toolFunctions registry of frontend/src/app/tools.ts: a static map from
the four capability names to their implementations; any other name looks up
to undefined. -/
def toolFunctions (env : JsEnv) : String → Option (Json → Except JsExn Json)
  | "get_weather" => some env.getWeather
  | "get_coordinates" => some env.getCoordinates
  | "get_news" => some env.getNews
  | "get_news_sources" => some env.getNewsSources
  | _ => none

/-- handleToolCall from frontend/src/app/tools.ts: look the name up in the
registry (unknown yields an error object without entering the try block),
then inside try/catch parse the arguments and invoke the capability; any
exception is normalized by the catch block into an error object. -/
def handleToolCall (env : JsEnv) (call : ToolCallFunction) : Json :=
  match toolFunctions env call.name with
  | none => errObj ("Unknown function call: " ++ call.name)
  | some f =>
    match env.jsonParse (argumentsOrEmptyObj call.arguments) with
    | .error e => errObj (catchMessage e)
    | .ok args =>
      match f args with
      | .ok result => result
      | .error e => errObj (catchMessage e)

/-- handleToolCall from the part_001 variant of tools.ts: the whole body is
inside try/catch; the arguments are parsed first, then the name is dispatched
by a switch whose default arm returns (not throws) an unknown-function error
object. The backendServerUrl the news capabilities receive is absorbed into
the environment. -/
def handleToolCallV1 (env : JsEnv) (call : ToolCallFunction) : Json :=
  match env.jsonParse (argumentsOrEmptyObj call.arguments) with
  | .error e => errObj (catchMessage e)
  | .ok args =>
    match (match call.name with
           | "get_weather" => env.getWeather args
           | "get_coordinates" => env.getCoordinates args
           | "get_news" => env.getNews args
           | "get_news_sources" => env.getNewsSources args
           | _ => .ok (errObj ("Unknown function call: " ++ call.name))
           : Except JsExn Json) with
    | .ok result => result
    | .error e => errObj (catchMessage e)

/-- One entry of response.output in a response.done envelope: either a
function call carrying call_id, name and arguments, or an entry of some other
type, which the handler skips. -/
inductive ResponseOutputItem where
  | functionCall (call_id : String) (name : String) (arguments : String)
  | other (itemType : String)

/-- A tool call the response.done handler has recorded and dispatched, whose
completion is still pending. -/
structure PendingCall where
  call_id : String
  name : String
  arguments : String
deriving DecidableEq

/-- The assistant turn the response.done handler appends for one function
call: null content and a single-element tool_calls list with the call's id,
name and arguments. -/
def functionCallMessage (call_id nm args : String) : ChatMessage :=
  { role := .assistant, content := none,
    tool_calls := some [{ id := call_id,
                          function := { name := nm, arguments := args } }],
    tool_call_id := none }

/-- One iteration of the response.done loop: a non-function_call entry is
skipped; a function_call entry appends its assistant turn to the history and
dispatches the call, adding it to the pending set. -/
def responseDoneStep (st : List ChatMessage × List PendingCall)
    (item : ResponseOutputItem) : List ChatMessage × List PendingCall :=
  match item with
  | .other _ => st
  | .functionCall cid nm args =>
    (st.1 ++ [functionCallMessage cid nm args],
     st.2 ++ [{ call_id := cid, name := nm, arguments := args }])

/-- The synchronous part of the response.done handler in the Unmute
component: iterate response.output in order, appending assistant turns and
dispatching tool calls. The then-callbacks of the dispatched calls run only
after this loop returns. -/
def processResponseDone (output : List ResponseOutputItem)
    (history : List ChatMessage) : List ChatMessage × List PendingCall :=
  output.foldl responseDoneStep (history, [])

/-- The tool turn one completion callback appends: role tool, the completed
call's id, and the stringified result as content (the completion carries the
already-stringified output string here). -/
def toolResultMessage (call_id output : String) : ChatMessage :=
  { role := .tool, content := some output,
    tool_calls := none, tool_call_id := some call_id }

/-- Applying a sequence of tool-call completions in the order they finish:
each appends its tool turn at the tail of the history. -/
def applyCompletions (history : List ChatMessage)
    (completions : List (String × String)) : List ChatMessage :=
  completions.foldl
    (fun h c => h ++ [toolResultMessage c.1 c.2]) history

/-- An inbound error envelope: the error object's type string (the severity)
and message. -/
structure ServerError where
  severity : String
  message : String
deriving DecidableEq

/-- Modelled from the spec: makeErrorItem of ErrorMessages.tsx is not under
src; per the spec, user-visible failures are accumulated into a dismissible
list, so an item is modelled as carrying the message it was made from. -/
structure ErrorItem where
  message : String
deriving DecidableEq

/-- Modelled from the spec: the constructor of a dismissible error item. -/
def makeErrorItem (msg : String) : ErrorItem :=
  { message := msg }

/-- The error-envelope branch of the Unmute message handler: severity
"warning" is logged only and leaves the error list unchanged; any other
severity appends a dismissible error item made from the message. -/
def handleErrorEnvelope (e : ServerError) (errors : List ErrorItem) :
    List ErrorItem :=
  if e.severity == "warning" then errors
  else errors ++ [makeErrorItem e.message]

/-- The outcome of one memory-upload network call: the fetch resolves with an
ok response, resolves with a non-ok response, or throws. -/
inductive UploadOutcome where
  | ok
  | httpFail
  | exn
deriving DecidableEq

/-- One iteration of the handleUploadMemories loop: read the slot; a falsy
slot is skipped; otherwise the upload is attempted and, depending on the
outcome, the success or the error counter is incremented. The third component
records which timestamps were attempted, in order. -/
def uploadStep (voiceName : String) (st : Storage)
    (outcome : String → UploadOutcome) (acc : Nat × Nat × List String)
    (timestamp : String) : Nat × Nat × List String :=
  match getItem st (memoryKey voiceName timestamp) with
  | some v =>
    if jsTruthyStored v then
      match outcome timestamp with
      | .ok => (acc.1 + 1, acc.2.1, acc.2.2 ++ [timestamp])
      | .httpFail => (acc.1, acc.2.1 + 1, acc.2.2 ++ [timestamp])
      | .exn => (acc.1, acc.2.1 + 1, acc.2.2 ++ [timestamp])
    else acc
  | none => acc

/-- handleUploadMemories from the Unmute component, after the user confirms:
an empty memory list returns early with no summary (none); otherwise every
listed timestamp is processed in order regardless of earlier failures, and
the summary (successCount, errorCount, attempted timestamps) is reported. -/
def handleUploadMemories (voiceName : String) (st : Storage)
    (outcome : String → UploadOutcome) : Option (Nat × Nat × List String) :=
  let memoryKeys := getMemoryList voiceName st
  if memoryKeys.isEmpty then none
  else some (memoryKeys.foldl (uploadStep voiceName st outcome) (0, 0, []))

/-! Helper lemmas about the JavaScript string model and the compression
loop. -/

theorem jsTruthyStr_of_ne (s : String) (h : s ≠ "") :
    jsTruthyStr (some s) = true := by
  simp [jsTruthyStr, h]

theorem jsTruthyStr_eq_false {c : Option String}
    (h : c = none ∨ c = some "") : jsTruthyStr c = false := by
  rcases h with h | h <;> subst h <;> rfl

theorem string_append_ne_empty (s t : String) (h : s ≠ "") : s ++ t ≠ "" := by
  cases s with
  | mk ds =>
    cases t with
    | mk dt =>
      intro hc
      apply h
      have hd : ds ++ dt = [] := congrArg String.data hc
      have : ds = [] := by
        cases ds with
        | nil => rfl
        | cons a l => simp at hd
      simp [this]

theorem pushFresh_of_blocked {m : ChatMessage}
    (h : m.content = none ∨ m.content = some "") : pushFresh m = m := by
  rcases h with h | h
  · simp [pushFresh, h]
  · cases m with
    | mk r c tc tcid =>
      simp only at h
      subst h
      simp [pushFresh, jsTrimStart]

theorem compressGo_blocked (separator : String) (cur : ChatMessage)
    (h : jsTruthyStr cur.content = false) (ys : List ChatMessage) :
    compressGo separator cur ys =
      cur :: compressChatHistory ys separator := by
  cases ys with
  | nil => rfl
  | cons y ys => simp [compressGo, compressChatHistory, h]

theorem compressGo_split_aux (separator : String) (t : ChatMessage)
    (ht : jsTruthyStr t.content = false) (hp : pushFresh t = t)
    (xs : List ChatMessage) :
    ∀ (cur : ChatMessage) (ys : List ChatMessage),
      compressGo separator cur (xs ++ t :: ys) =
        compressGo separator cur xs ++
          t :: compressChatHistory ys separator := by
  induction xs with
  | nil =>
    intro cur ys
    simp only [List.nil_append]
    simp [compressGo, ht, hp, compressGo_blocked separator t ht,
      compressChatHistory]
  | cons x xs ih =>
    intro cur ys
    simp only [List.cons_append]
    rw [compressGo]
    by_cases hc : (cur.role == x.role && jsTruthyStr x.content &&
        jsTruthyStr cur.content) = true
    · rw [if_pos hc, ih]
      conv_rhs => rw [compressGo, if_pos hc]
    · rw [if_neg hc, ih]
      conv_rhs => rw [compressGo, if_neg hc]
      simp

theorem compress_split (separator : String) (t : ChatMessage)
    (xs ys : List ChatMessage) (h : t.content = none ∨ t.content = some "") :
    compressChatHistory (xs ++ t :: ys) separator =
      compressChatHistory xs separator ++
        t :: compressChatHistory ys separator := by
  have ht := jsTruthyStr_eq_false h
  have hp := pushFresh_of_blocked h
  cases xs with
  | nil =>
    simp only [List.nil_append]
    rw [show compressChatHistory (t :: ys) separator =
          compressGo separator (pushFresh t) ys from rfl,
      hp, compressGo_blocked separator t ht ys,
      show compressChatHistory ([] : List ChatMessage) separator = []
        from rfl, List.nil_append]
  | cons x xs =>
    simp only [List.cons_append]
    rw [show compressChatHistory (x :: (xs ++ t :: ys)) separator =
          compressGo separator (pushFresh x) (xs ++ t :: ys) from rfl,
      compressGo_split_aux separator t ht hp xs (pushFresh x) ys,
      show compressChatHistory (x :: xs) separator =
        compressGo separator (pushFresh x) xs from rfl]

theorem compressGo_merge_all (separator : String) (rest : List ChatMessage) :
    ∀ (cur : ChatMessage) (s : String), cur.content = some s → s ≠ "" →
      (∀ m ∈ rest, m.role = cur.role ∧ m.content ≠ none ∧
        m.content ≠ some "") →
      compressGo separator cur rest =
        [{ cur with content := some (joinWithSep separator s
            (rest.map (fun m => m.content.getD ""))) }] := by
  induction rest with
  | nil =>
    intro cur s hs hne hall
    cases cur with
    | mk r c tc tcid =>
      simp only at hs
      subst hs
      simp [compressGo, joinWithSep]
  | cons m rest ih =>
    intro cur s hs hne hall
    obtain ⟨hrole, hcnone, hcempty⟩ := hall m (by simp)
    obtain ⟨c, hc⟩ : ∃ c, m.content = some c := by
      cases hmc : m.content with
      | none => exact absurd hmc hcnone
      | some c => exact ⟨c, rfl⟩
    have hcne : c ≠ "" := fun hce => hcempty (by rw [hc, hce])
    have hcond : (cur.role == m.role && jsTruthyStr m.content &&
        jsTruthyStr cur.content) = true := by
      rw [hs, hc, hrole]
      simp [jsTruthyStr_of_ne c hcne, jsTruthyStr_of_ne s hne]
    have hXne : (cur.content.getD "" ++ separator ++ m.content.getD "") ≠
        "" := by
      rw [hs, hc]
      simp only [Option.getD_some]
      exact string_append_ne_empty (s ++ separator) c
        (string_append_ne_empty s separator hne)
    have hall' : ∀ m' ∈ rest, m'.role =
        ({ cur with content := some (cur.content.getD "" ++ separator ++
          m.content.getD "") } : ChatMessage).role ∧
        m'.content ≠ none ∧ m'.content ≠ some "" := by
      intro m' hm'
      obtain ⟨h1, h2, h3⟩ := hall m' (List.mem_cons_of_mem _ hm')
      exact ⟨h1, h2, h3⟩
    rw [compressGo, if_pos hcond, ih _ _ rfl hXne hall']
    rw [hs, hc]
    simp only [Option.getD_some, List.map_cons, joinWithSep]
    rw [hc]
    simp only [Option.getD_some]

/-- Claim C2: a Turn with null content is never merged with either neighbor,
whatever the roles: compression of any history containing it splits at that
Turn, the Turn itself appearing unchanged as its own Turn in the compressed
output, with the parts before and after it compressed independently. -/
theorem compress_null_content_isolated (separator : String) (t : ChatMessage)
    (xs ys : List ChatMessage) (h : t.content = none) :
    compressChatHistory (xs ++ t :: ys) separator =
      compressChatHistory xs separator ++
        t :: compressChatHistory ys separator :=
  compress_split separator t xs ys (Or.inl h)

theorem compress_null_content_isolated_witness :
    compressChatHistory
        [⟨ChatRole.assistant, some "a", none, none⟩,
         ⟨ChatRole.assistant, none, some [⟨"c1", ⟨"get_weather", "\x7b\x7d"⟩⟩],
           none⟩,
         ⟨ChatRole.assistant, some "b", none, none⟩] "," =
      [⟨ChatRole.assistant, some "a", none, none⟩,
       ⟨ChatRole.assistant, none, some [⟨"c1", ⟨"get_weather", "\x7b\x7d"⟩⟩],
         none⟩,
       ⟨ChatRole.assistant, some "b", none, none⟩] := by
  have h := compress_null_content_isolated ","
    ⟨ChatRole.assistant, none, some [⟨"c1", ⟨"get_weather", "\x7b\x7d"⟩⟩],
      none⟩
    [⟨ChatRole.assistant, some "a", none, none⟩]
    [⟨ChatRole.assistant, some "b", none, none⟩]
    rfl
  exact h.trans (by decide)

/-- Claim C10: a Turn whose content is the empty string is never merged
during compression even when the adjacent roles match: compression splits at
that Turn, it is pushed unchanged as its own Turn, and the Turns after it are
compressed from a fresh start, so a following same-role Turn starts a new
compressed Turn rather than merging into it. -/
theorem compress_empty_content_isolated (separator : String) (t : ChatMessage)
    (xs ys : List ChatMessage) (h : t.content = some "") :
    compressChatHistory (xs ++ t :: ys) separator =
      compressChatHistory xs separator ++
        t :: compressChatHistory ys separator :=
  compress_split separator t xs ys (Or.inr h)

theorem compress_empty_content_isolated_witness :
    compressChatHistory
        [⟨ChatRole.user, some "a", none, none⟩,
         ⟨ChatRole.user, some "", none, none⟩,
         ⟨ChatRole.user, some "b", none, none⟩] "," =
      [⟨ChatRole.user, some "a", none, none⟩,
       ⟨ChatRole.user, some "", none, none⟩,
       ⟨ChatRole.user, some "b", none, none⟩] := by
  have h := compress_empty_content_isolated ","
    ⟨ChatRole.user, some "", none, none⟩
    [⟨ChatRole.user, some "a", none, none⟩]
    [⟨ChatRole.user, some "b", none, none⟩]
    rfl
  exact h.trans (by decide)

/-- Claim C1 as stated is false on the code, at two explicit inputs: a
same-role sequence whose contents are all non-null need not compress to one
Turn (an empty-string content is falsy in the merge guard, so it never
merges), and even when everything merges the merged content is not the plain
join of the originals (the first content is trimStart-ed when pushed). -/
theorem compress_c1_counterexample :
    (compressChatHistory
        [⟨ChatRole.user, some "", none, none⟩,
         ⟨ChatRole.user, some "a", none, none⟩] ",").length = 2 ∧
    compressChatHistory
        [⟨ChatRole.user, some " hi", none, none⟩,
         ⟨ChatRole.user, some "there", none, none⟩] "," =
      [⟨ChatRole.user, some "hi,there", none, none⟩] ∧
    " hi" ++ "," ++ "there" ≠ "hi,there" :=
  ⟨by decide, by decide, by decide⟩

/-- Claim C1 (amended): for every nonempty sequence of same-role Turns whose
contents are all non-null, whose first content is nonempty after trimStart,
and whose remaining contents are nonempty, compression returns exactly one
merged Turn whose content is the trimStart of the first content joined with
the remaining contents by the separator, in their original order. -/
theorem compress_same_role_merge (m0 : ChatMessage)
    (rest : List ChatMessage) (separator c0 : String)
    (h0 : m0.content = some c0) (h0ne : jsTrimStart c0 ≠ "")
    (hrest : ∀ m ∈ rest, m.role = m0.role ∧ m.content ≠ none ∧
      m.content ≠ some "") :
    compressChatHistory (m0 :: rest) separator =
      [{ m0 with content := some (joinWithSep separator (jsTrimStart c0)
          (rest.map (fun m => m.content.getD ""))) }] := by
  rw [show compressChatHistory (m0 :: rest) separator =
        compressGo separator (pushFresh m0) rest from rfl]
  have hpf : pushFresh m0 = { m0 with content := some (jsTrimStart c0) } := by
    simp [pushFresh, h0]
  rw [hpf]
  rw [compressGo_merge_all separator rest _ (jsTrimStart c0) rfl h0ne
    (by intro m hm
        obtain ⟨h1, h2, h3⟩ := hrest m hm
        exact ⟨h1, h2, h3⟩)]

theorem compress_same_role_merge_witness :
    compressChatHistory
        [⟨ChatRole.user, some "hi", none, none⟩,
         ⟨ChatRole.user, some "there", none, none⟩] "" =
      [⟨ChatRole.user, some "hithere", none, none⟩] := by
  have h := compress_same_role_merge
    ⟨ChatRole.user, some "hi", none, none⟩
    [⟨ChatRole.user, some "there", none, none⟩]
    "" "hi" rfl (by decide) (by decide)
  exact h.trans (by decide)

theorem toolFunctions_inv (env : JsEnv) (name : String)
    (f : Json → Except JsExn Json) (hf : toolFunctions env name = some f) :
    (name = "get_weather" ∧ f = env.getWeather) ∨
    (name = "get_coordinates" ∧ f = env.getCoordinates) ∨
    (name = "get_news" ∧ f = env.getNews) ∨
    (name = "get_news_sources" ∧ f = env.getNewsSources) := by
  unfold toolFunctions at hf
  split at hf <;> simp_all

/-- Claim C3: tool dispatch always returns a plain result value and never
propagates an exception to its caller, in both versions of handleToolCall.
For the frontend tools.ts version: an unknown function name yields the
unknown-function error object; a known name with arguments that are not valid
JSON yields an error object carrying the parse failure's message; a known
name whose capability returns yields that plain value; a known name whose
capability throws yields an error object with the normalized message. For the
part_001 version: a parse failure yields an error object with its message; a
successfully parsed call to an unknown name yields the unknown-function error
object; and a known name yields the capability's value or its normalized
error object. Every outcome is a plain value of the result type. -/
theorem tool_dispatch_error_contract (env : JsEnv) (call : ToolCallFunction) :
    (toolFunctions env call.name = none →
      handleToolCall env call =
        errObj ("Unknown function call: " ++ call.name)) ∧
    (∀ f msg, toolFunctions env call.name = some f → call.arguments ≠ "" →
      env.jsonParse call.arguments = .error (.jsError msg) →
      handleToolCall env call = errObj msg) ∧
    (∀ f args v, toolFunctions env call.name = some f →
      env.jsonParse (argumentsOrEmptyObj call.arguments) = .ok args →
      f args = .ok v → handleToolCall env call = v) ∧
    (∀ f args e, toolFunctions env call.name = some f →
      env.jsonParse (argumentsOrEmptyObj call.arguments) = .ok args →
      f args = .error e →
      handleToolCall env call = errObj (catchMessage e)) ∧
    (∀ msg,
      env.jsonParse (argumentsOrEmptyObj call.arguments) =
        .error (.jsError msg) →
      handleToolCallV1 env call = errObj msg) ∧
    (∀ args, env.jsonParse (argumentsOrEmptyObj call.arguments) = .ok args →
      toolFunctions env call.name = none →
      handleToolCallV1 env call =
        errObj ("Unknown function call: " ++ call.name)) ∧
    (∀ f args v, toolFunctions env call.name = some f →
      env.jsonParse (argumentsOrEmptyObj call.arguments) = .ok args →
      f args = .ok v → handleToolCallV1 env call = v) ∧
    (∀ f args e, toolFunctions env call.name = some f →
      env.jsonParse (argumentsOrEmptyObj call.arguments) = .ok args →
      f args = .error e →
      handleToolCallV1 env call = errObj (catchMessage e)) := by
  refine ⟨?_, ?_, ?_, ?_, ?_, ?_, ?_, ?_⟩
  · intro hf
    simp [handleToolCall, hf]
  · intro f msg hf hargs hparse
    have hao : argumentsOrEmptyObj call.arguments = call.arguments := by
      simp [argumentsOrEmptyObj, hargs]
    simp only [handleToolCall, hf, hao, hparse, catchMessage]
  · intro f args v hf hparse hres
    simp only [handleToolCall, hf, hparse, hres]
  · intro f args e hf hparse hres
    simp only [handleToolCall, hf, hparse, hres]
  · intro msg hparse
    simp only [handleToolCallV1, hparse, catchMessage]
  · intro args hparse hnone
    have hsw : (match call.name with
        | "get_weather" => env.getWeather args
        | "get_coordinates" => env.getCoordinates args
        | "get_news" => env.getNews args
        | "get_news_sources" => env.getNewsSources args
        | _ => Except.ok (errObj ("Unknown function call: " ++ call.name))) =
        Except.ok (errObj ("Unknown function call: " ++ call.name)) := by
      split
      · next h => rw [h] at hnone; simp [toolFunctions] at hnone
      · next h => rw [h] at hnone; simp [toolFunctions] at hnone
      · next h => rw [h] at hnone; simp [toolFunctions] at hnone
      · next h => rw [h] at hnone; simp [toolFunctions] at hnone
      · rfl
    simp only [handleToolCallV1, hparse, hsw]
  · intro f args v hf hparse hres
    rcases toolFunctions_inv env call.name f hf with
      ⟨hn, hfe⟩ | ⟨hn, hfe⟩ | ⟨hn, hfe⟩ | ⟨hn, hfe⟩ <;>
      subst hfe <;> simp only [handleToolCallV1, hparse, hn] <;>
      simp [hres]
  · intro f args e hf hparse hres
    rcases toolFunctions_inv env call.name f hf with
      ⟨hn, hfe⟩ | ⟨hn, hfe⟩ | ⟨hn, hfe⟩ | ⟨hn, hfe⟩ <;>
      subst hfe <;> simp only [handleToolCallV1, hparse, hn] <;>
      simp [hres, catchMessage]

theorem tool_dispatch_error_contract_witness :
    handleToolCall
        ⟨fun s => if s == "\x7b\x7d" then .ok (.obj [])
           else .error (.jsError "parse error"),
         fun _ => .ok .null, fun _ => .ok .null, fun _ => .ok .null,
         fun _ => .ok .null⟩
        ⟨"nope", "\x7b\x7d"⟩ = errObj ("Unknown function call: " ++ "nope") ∧
    handleToolCall
        ⟨fun s => if s == "\x7b\x7d" then .ok (.obj [])
           else .error (.jsError "parse error"),
         fun _ => .ok .null, fun _ => .ok .null, fun _ => .ok .null,
         fun _ => .ok .null⟩
        ⟨"get_weather", "oops"⟩ = errObj "parse error" ∧
    handleToolCallV1
        ⟨fun s => if s == "\x7b\x7d" then .ok (.obj [])
           else .error (.jsError "parse error"),
         fun _ => .ok .null, fun _ => .ok .null, fun _ => .ok .null,
         fun _ => .ok .null⟩
        ⟨"get_weather", "oops"⟩ = errObj "parse error" ∧
    handleToolCallV1
        ⟨fun s => if s == "\x7b\x7d" then .ok (.obj [])
           else .error (.jsError "parse error"),
         fun _ => .ok .null, fun _ => .ok .null, fun _ => .ok .null,
         fun _ => .ok .null⟩
        ⟨"nope", "\x7b\x7d"⟩ =
      errObj ("Unknown function call: " ++ "nope") := by
  refine ⟨(tool_dispatch_error_contract _ _).1 rfl,
    (tool_dispatch_error_contract _ _).2.1 (fun _ => Except.ok Json.null)
      "parse error" rfl (by decide) rfl,
    (tool_dispatch_error_contract _ _).2.2.2.2.1 "parse error" rfl,
    (tool_dispatch_error_contract _ _).2.2.2.2.2.1 (Json.obj []) rfl rfl⟩

theorem processResponseDone_eq (output : List ResponseOutputItem) :
    ∀ (history : List ChatMessage) (pending : List PendingCall),
      output.foldl responseDoneStep (history, pending) =
        (history ++ output.filterMap (fun item =>
          match item with
          | .functionCall cid nm args =>
            some (functionCallMessage cid nm args)
          | .other _ => none),
         pending ++ output.filterMap (fun item =>
          match item with
          | .functionCall cid nm args =>
            some ({ call_id := cid, name := nm,
                    arguments := args } : PendingCall)
          | .other _ => none)) := by
  induction output with
  | nil =>
    intro h p
    simp
  | cons item rest ih =>
    intro h p
    cases item with
    | functionCall cid nm args =>
      simp only [List.foldl_cons, responseDoneStep, List.filterMap_cons]
      rw [ih]
      simp
    | other t =>
      simp only [List.foldl_cons, responseDoneStep, List.filterMap_cons]
      rw [ih]

theorem applyCompletions_eq (completions : List (String × String)) :
    ∀ history, applyCompletions history completions =
      history ++ completions.map (fun c => toolResultMessage c.1 c.2) := by
  induction completions with
  | nil =>
    intro h
    simp [applyCompletions]
  | cons c cs ih =>
    intro h
    have hstep : applyCompletions h (c :: cs) =
        applyCompletions (h ++ [toolResultMessage c.1 c.2]) cs := rfl
    rw [hstep, ih]
    simp

theorem filterMap_functionCall_length (output : List ResponseOutputItem) :
    (output.filterMap (fun item => match item with
      | .functionCall cid nm args => some (functionCallMessage cid nm args)
      | .other _ => none)).length =
    output.countP (fun item => match item with
      | .functionCall _ _ _ => true
      | .other _ => false) := by
  induction output with
  | nil => rfl
  | cons item rest ih =>
    cases item <;> simp [List.filterMap_cons, List.countP_cons, ih]

/-- Claim C4: processing a response.done envelope whose output has n
function_call entries appends exactly one assistant Turn per entry to the
history, in the envelope's order — each with null content and a one-element
tool_calls list carrying that call's id, name and arguments — so the history
grows by exactly n such Turns; the handler records the n calls as pending;
and for every completion order of those calls (the then-callbacks run only
after the synchronous loop), the tool-result Turns are appended strictly
after all n assistant Turns. -/
theorem response_done_appends_assistants_first
    (output : List ResponseOutputItem) (history : List ChatMessage)
    (completions : List (String × String))
    (hperm : List.Perm (completions.map Prod.fst)
      ((processResponseDone output history).2.map PendingCall.call_id)) :
    (processResponseDone output history).1 =
      history ++ output.filterMap (fun item => match item with
        | .functionCall cid nm args => some (functionCallMessage cid nm args)
        | .other _ => none) ∧
    (processResponseDone output history).2 =
      output.filterMap (fun item => match item with
        | .functionCall cid nm args =>
          some ({ call_id := cid, name := nm,
                  arguments := args } : PendingCall)
        | .other _ => none) ∧
    (processResponseDone output history).1.length =
      history.length + output.countP (fun item => match item with
        | .functionCall _ _ _ => true
        | .other _ => false) ∧
    (∀ cid nm args, (functionCallMessage cid nm args).role = .assistant ∧
      (functionCallMessage cid nm args).content = none ∧
      (functionCallMessage cid nm args).tool_calls =
        some [⟨cid, ⟨nm, args⟩⟩]) ∧
    completions.length = (processResponseDone output history).2.length ∧
    applyCompletions (processResponseDone output history).1 completions =
      (history ++ output.filterMap (fun item => match item with
        | .functionCall cid nm args => some (functionCallMessage cid nm args)
        | .other _ => none)) ++
        completions.map (fun c => toolResultMessage c.1 c.2) := by
  have hpd : processResponseDone output history =
      (history ++ output.filterMap (fun item => match item with
        | .functionCall cid nm args => some (functionCallMessage cid nm args)
        | .other _ => none),
       ([] : List PendingCall) ++ output.filterMap (fun item =>
        match item with
        | .functionCall cid nm args =>
          some ({ call_id := cid, name := nm,
                  arguments := args } : PendingCall)
        | .other _ => none)) :=
    processResponseDone_eq output history []
  refine ⟨?_, ?_, ?_, ?_, ?_, ?_⟩
  · rw [hpd]
  · rw [hpd]
    simp
  · rw [hpd]
    simp [filterMap_functionCall_length]
  · intro cid nm args
    exact ⟨rfl, rfl, rfl⟩
  · have hlen := hperm.length_eq
    simpa using hlen
  · rw [hpd]
    exact applyCompletions_eq completions _

theorem response_done_appends_assistants_first_witness :
    (processResponseDone
        [ResponseOutputItem.functionCall "A" "get_weather" "\x7b\x7d",
         ResponseOutputItem.functionCall "B" "get_news" "\x7b\x7d"]
        [⟨ChatRole.user, some "hi", none, none⟩]).1 =
      [⟨ChatRole.user, some "hi", none, none⟩,
       ⟨ChatRole.assistant, none,
         some [⟨"A", ⟨"get_weather", "\x7b\x7d"⟩⟩], none⟩,
       ⟨ChatRole.assistant, none,
         some [⟨"B", ⟨"get_news", "\x7b\x7d"⟩⟩], none⟩] ∧
    applyCompletions
        (processResponseDone
          [ResponseOutputItem.functionCall "A" "get_weather" "\x7b\x7d",
           ResponseOutputItem.functionCall "B" "get_news" "\x7b\x7d"]
          [⟨ChatRole.user, some "hi", none, none⟩]).1
        [("B", "outB"), ("A", "outA")] =
      [⟨ChatRole.user, some "hi", none, none⟩,
       ⟨ChatRole.assistant, none,
         some [⟨"A", ⟨"get_weather", "\x7b\x7d"⟩⟩], none⟩,
       ⟨ChatRole.assistant, none,
         some [⟨"B", ⟨"get_news", "\x7b\x7d"⟩⟩], none⟩,
       ⟨ChatRole.tool, some "outB", none, some "B"⟩,
       ⟨ChatRole.tool, some "outA", none, some "A"⟩] := by
  have h := response_done_appends_assistants_first
    [ResponseOutputItem.functionCall "A" "get_weather" "\x7b\x7d",
     ResponseOutputItem.functionCall "B" "get_news" "\x7b\x7d"]
    [⟨ChatRole.user, some "hi", none, none⟩]
    [("B", "outB"), ("A", "outA")]
    (by decide)
  exact ⟨h.1.trans (by decide), h.2.2.2.2.2.trans (by decide)⟩

/-- Claim C8 as stated is false on the code at an explicit input: an error
envelope whose severity is "info" is neither "warning" nor "error", yet the
handler appends it to the dismissible error list — the list changes although
the severity is not error. -/
theorem error_envelope_counterexample :
    ("info" : String) ≠ "error" ∧
    handleErrorEnvelope ⟨"info", "boom"⟩ [] = [makeErrorItem "boom"] ∧
    handleErrorEnvelope ⟨"info", "boom"⟩ [] ≠ [] := by
  refine ⟨by decide, by decide, by decide⟩

/-- Claim C8 (amended): the user-visible error list is appended to exactly
when the envelope's severity is not "warning": a warning envelope is logged
only and leaves the list unchanged, and an envelope of any other severity
appends one dismissible item made from its message. -/
theorem error_envelope_appends_iff (e : ServerError)
    (errors : List ErrorItem) :
    (e.severity = "warning" → handleErrorEnvelope e errors = errors) ∧
    (e.severity ≠ "warning" →
      handleErrorEnvelope e errors = errors ++ [makeErrorItem e.message]) := by
  constructor <;> intro h <;> simp [handleErrorEnvelope, h]

theorem error_envelope_appends_iff_witness :
    handleErrorEnvelope ⟨"warning", "w"⟩ [] = ([] : List ErrorItem) ∧
    handleErrorEnvelope ⟨"error", "e"⟩ [] =
      ([] : List ErrorItem) ++ [makeErrorItem "e"] :=
  ⟨(error_envelope_appends_iff ⟨"warning", "w"⟩ []).1 rfl,
   (error_envelope_appends_iff ⟨"error", "e"⟩ []).2 (by decide)⟩

theorem countP_pos_add_countP_neg (l : List String) (p : String → Bool) :
    l.countP p + l.countP (fun t => !(p t)) = l.length := by
  induction l with
  | nil => rfl
  | cons t l ih =>
    cases hp : p t <;> simp [List.countP_cons, hp] <;> omega

theorem uploadLoop_eq (vn : String) (st : Storage)
    (outcome : String → UploadOutcome) (keys : List String) :
    ∀ (acc : Nat × Nat × List String),
      (∀ t ∈ keys, (getItem st (memoryKey vn t)).map jsTruthyStored =
        some true) →
      keys.foldl (uploadStep vn st outcome) acc =
        (acc.1 + keys.countP (fun t => outcome t == UploadOutcome.ok),
         acc.2.1 + keys.countP (fun t => !(outcome t == UploadOutcome.ok)),
         acc.2.2 ++ keys) := by
  induction keys with
  | nil =>
    intro acc hall
    simp
  | cons t keys ih =>
    intro acc hall
    have ht := hall t (by simp)
    obtain ⟨v, hv, htr⟩ : ∃ v, getItem st (memoryKey vn t) = some v ∧
        jsTruthyStored v = true := by
      cases hg : getItem st (memoryKey vn t) with
      | none => rw [hg] at ht; simp at ht
      | some v =>
        rw [hg] at ht
        simp only [Option.map_some', Option.some.injEq] at ht
        exact ⟨v, rfl, ht⟩
    have hrest : ∀ t' ∈ keys,
        (getItem st (memoryKey vn t')).map jsTruthyStored = some true :=
      fun t' ht' => hall t' (List.mem_cons_of_mem _ ht')
    cases ho : outcome t with
    | ok =>
      have hstep : uploadStep vn st outcome acc t =
          (acc.1 + 1, acc.2.1, acc.2.2 ++ [t]) := by
        simp [uploadStep, hv, htr, ho]
      rw [List.foldl_cons, hstep, ih _ hrest]
      simp only [Prod.mk.injEq, List.countP_cons, ho]
      refine ⟨by simp; omega, by simp, by simp⟩
    | httpFail =>
      have hstep : uploadStep vn st outcome acc t =
          (acc.1, acc.2.1 + 1, acc.2.2 ++ [t]) := by
        simp [uploadStep, hv, htr, ho]
      rw [List.foldl_cons, hstep, ih _ hrest]
      simp only [Prod.mk.injEq, List.countP_cons, ho]
      refine ⟨by simp, by simp; omega, by simp⟩
    | exn =>
      have hstep : uploadStep vn st outcome acc t =
          (acc.1, acc.2.1 + 1, acc.2.2 ++ [t]) := by
        simp [uploadStep, hv, htr, ho]
      rw [List.foldl_cons, hstep, ih _ hrest]
      simp only [Prod.mk.injEq, List.countP_cons, ho]
      refine ⟨by simp, by simp; omega, by simp⟩

/-- Claim C9: when every listed local snapshot slot holds a (truthy) stored
value, the post-confirmation upload handler attempts all n listed snapshots
in order — no failure aborts the remaining items — and reports a summary
whose successCount is the number of uploads with an ok outcome, whose
errorCount is the number with a failing outcome (non-ok response or thrown
fetch), and successCount + errorCount = n. -/
theorem upload_memories_summary (voiceName : String) (st : Storage)
    (outcome : String → UploadOutcome)
    (hne : getMemoryList voiceName st ≠ [])
    (hcontent : ∀ t ∈ getMemoryList voiceName st,
      (getItem st (memoryKey voiceName t)).map jsTruthyStored = some true) :
    handleUploadMemories voiceName st outcome =
      some ((getMemoryList voiceName st).countP
              (fun t => outcome t == UploadOutcome.ok),
            (getMemoryList voiceName st).countP
              (fun t => !(outcome t == UploadOutcome.ok)),
            getMemoryList voiceName st) ∧
    (getMemoryList voiceName st).countP
        (fun t => outcome t == UploadOutcome.ok) +
      (getMemoryList voiceName st).countP
        (fun t => !(outcome t == UploadOutcome.ok)) =
      (getMemoryList voiceName st).length := by
  constructor
  · unfold handleUploadMemories
    rw [if_neg (by simpa using hne)]
    rw [uploadLoop_eq voiceName st outcome _ _ hcontent]
    simp
  · exact countP_pos_add_countP_neg _ _

theorem upload_memories_summary_witness :
    handleUploadMemories "v"
        [("chatHistory_v_memory_t1", StoredString.jsonVal (Json.arr [])),
         ("chatHistory_v_memory_t2", StoredString.jsonVal (Json.arr [])),
         ("chatHistory_v_memory_t3", StoredString.jsonVal (Json.arr []))]
        (fun t => if t == "t2" then UploadOutcome.httpFail
          else UploadOutcome.ok) =
      some (2, 1, ["t3", "t2", "t1"]) := by
  have h := upload_memories_summary "v"
    [("chatHistory_v_memory_t1", StoredString.jsonVal (Json.arr [])),
     ("chatHistory_v_memory_t2", StoredString.jsonVal (Json.arr [])),
     ("chatHistory_v_memory_t3", StoredString.jsonVal (Json.arr []))]
    (fun t => if t == "t2" then UploadOutcome.httpFail else UploadOutcome.ok)
    (by decide) (by decide)
  exact h.1.trans (by decide)

theorem getItem_setItem_self (st : Storage) (k : String) (v : StoredString) :
    getItem (setItem st k v) k = some v := by
  induction st with
  | nil => simp [setItem, getItem]
  | cons e rest ih =>
    obtain ⟨k', v'⟩ := e
    by_cases h : (k' == k) = true
    · simp [setItem, getItem, h]
    · simp only [setItem, getItem]
      rw [if_neg (by simpa using h), getItem, if_neg (by simpa using h)]
      exact ih

theorem getItem_setItem_ne (st : Storage) (k k' : String) (v : StoredString)
    (hne : k' ≠ k) : getItem (setItem st k v) k' = getItem st k' := by
  have hkk : (k == k') = false :=
    beq_eq_false_iff_ne.mpr (fun h => hne h.symm)
  induction st with
  | nil =>
    simp [setItem, getItem, hkk]
  | cons e rest ih =>
    obtain ⟨k'', v''⟩ := e
    by_cases h : k'' = k
    · subst h
      simp [setItem, getItem, hkk]
    · simp only [setItem, getItem, if_neg]
      rw [if_neg (by simp [h]), getItem]
      by_cases h2 : k'' = k'
      · simp [h2]
      · simp [beq_eq_false_iff_ne.mpr h2, ih]

theorem setItem_keys_of_not_mem (st : Storage) (k : String) (v : StoredString)
    (h : k ∉ st.map Prod.fst) :
    (setItem st k v).map Prod.fst = st.map Prod.fst ++ [k] := by
  induction st with
  | nil => simp [setItem]
  | cons e rest ih =>
    obtain ⟨k', v'⟩ := e
    simp only [List.map_cons, List.mem_cons] at h
    push_neg at h
    obtain ⟨h1, h2⟩ := h
    simp only [setItem]
    rw [if_neg (by simpa using fun hh => h1 hh.symm)]
    simp [ih h2]

theorem decodeRole_encodeRole (r : ChatRole) :
    decodeRole (encodeRole r) = some r := by
  cases r <;> rfl

theorem decodeToolCall_encodeToolCall (tc : ToolCall) :
    decodeToolCall (encodeToolCall tc) = some tc := by
  obtain ⟨i, n, a⟩ := tc
  rfl

theorem decodeToolCalls_map (tcs : List ToolCall) :
    decodeToolCalls (tcs.map encodeToolCall) = some tcs := by
  induction tcs with
  | nil => rfl
  | cons tc tcs ih =>
    simp [decodeToolCalls, decodeToolCall_encodeToolCall tc, ih]

theorem decode_encode (m : ChatMessage) :
    decodeChatMessage (encodeChatMessage m) = some m := by
  obtain ⟨r, c, tcs, tcid⟩ := m
  cases r <;> cases c <;> cases tcs <;> cases tcid <;>
    simp [encodeChatMessage, decodeChatMessage, encodeRole, decodeRole,
      decodeContent, decodeToolCalls_map]

theorem decodeHistory_map (h : List ChatMessage) :
    decodeHistory (h.map encodeChatMessage) = some h := by
  induction h with
  | nil => rfl
  | cons m h ih =>
    simp [decodeHistory, decode_encode m, ih]

/-- Claim C5: saving a history under a voiceName and loading that voiceName
back returns a history equal to the one saved: the loaded runtime value is
exactly the serialized form of the saved history (JSON round-trip at the
value layer), and decoding it recovers the saved history itself, for every
starting store. -/
theorem save_load_roundtrip (h : List ChatMessage) (voiceName : String)
    (st : Storage) :
    loadChatHistory voiceName (saveChatHistory h voiceName st) =
      h.map encodeChatMessage ∧
    decodeHistory
        (loadChatHistory voiceName (saveChatHistory h voiceName st)) =
      some h := by
  have hload : loadChatHistory voiceName (saveChatHistory h voiceName st) =
      h.map encodeChatMessage := by
    unfold loadChatHistory saveChatHistory
    rw [getItem_setItem_self]
    rfl
  exact ⟨hload, by rw [hload]; exact decodeHistory_map h⟩

/-- Claim C7: loadChatHistory returns the empty sequence (and, being a total
function whose catch block covers the parse, never throws) when the persisted
key is absent, when the stored value is a string that is not valid JSON, and
when it is valid JSON but not an array. -/
theorem load_absent_or_corrupt_empty (voiceName : String) (st : Storage) :
    (getItem st (getStorageKey voiceName) = none →
      loadChatHistory voiceName st = []) ∧
    (∀ s, getItem st (getStorageKey voiceName) =
        some (StoredString.invalid s) →
      loadChatHistory voiceName st = []) ∧
    (∀ j, getItem st (getStorageKey voiceName) =
        some (StoredString.jsonVal j) →
      (∀ elems, j ≠ Json.arr elems) →
      loadChatHistory voiceName st = []) := by
  refine ⟨?_, ?_, ?_⟩
  · intro h
    unfold loadChatHistory
    rw [h]
    rfl
  · intro s h
    unfold loadChatHistory
    rw [h]
    simp [parseHistoryVal]
  · intro j hj hne
    unfold loadChatHistory
    rw [hj]
    cases j with
    | arr elems => exact absurd rfl (hne elems)
    | null => rfl
    | bool b => rfl
    | num n => rfl
    | str s => rfl
    | obj fields => rfl

theorem load_absent_or_corrupt_empty_witness :
    loadChatHistory "u"
        [("chatHistory_v", StoredString.invalid "oops"),
         ("chatHistory_w", StoredString.jsonVal (Json.num 3))] = [] ∧
    loadChatHistory "v"
        [("chatHistory_v", StoredString.invalid "oops"),
         ("chatHistory_w", StoredString.jsonVal (Json.num 3))] = [] ∧
    loadChatHistory "w"
        [("chatHistory_v", StoredString.invalid "oops"),
         ("chatHistory_w", StoredString.jsonVal (Json.num 3))] = [] := by
  refine ⟨(load_absent_or_corrupt_empty "u" _).1 rfl,
    (load_absent_or_corrupt_empty "v" _).2.1 "oops" rfl,
    (load_absent_or_corrupt_empty "w" _).2.2 (Json.num 3) rfl
      (fun elems h => Json.noConfusion h)⟩

theorem char_toNat_inj {a b : Char} (h : a.toNat = b.toNat) : a = b := by
  have h2 := congrArg Char.ofNat h
  rwa [Char.ofNat_toNat, Char.ofNat_toNat] at h2

theorem listLeB_refl : ∀ as, listLeB as as = true
  | [] => rfl
  | a :: as => by simp [listLeB, listLeB_refl as]

theorem listLeB_total : ∀ as bs, listLeB as bs = true ∨ listLeB bs as = true
  | [], _ => Or.inl rfl
  | _ :: _, [] => Or.inr rfl
  | a :: as, b :: bs => by
    by_cases hab : a = b
    · subst hab
      rcases listLeB_total as bs with h | h
      · exact Or.inl (by simp [listLeB, h])
      · exact Or.inr (by simp [listLeB, h])
    · rcases Nat.lt_or_ge a.toNat b.toNat with h | h
      · exact Or.inl (by simp [listLeB, hab, h])
      · have hlt : b.toNat < a.toNat := by
          rcases Nat.lt_or_ge b.toNat a.toNat with h2 | h2
          · exact h2
          · exact absurd (char_toNat_inj (Nat.le_antisymm h2 h)) hab
        exact Or.inr (by simp [listLeB, Ne.symm hab, hlt])

theorem listLeB_trans : ∀ as bs cs, listLeB as bs = true →
    listLeB bs cs = true → listLeB as cs = true
  | [], _, _, _, _ => rfl
  | _ :: _, [], _, h1, _ => by simp [listLeB] at h1
  | _ :: _, _ :: _, [], _, h2 => by simp [listLeB] at h2
  | a :: as, b :: bs, c :: cs, h1, h2 => by
    by_cases hab : a = b
    · subst hab
      by_cases hbc : a = c
      · subst hbc
        simp only [listLeB, if_pos rfl] at h1 h2 ⊢
        exact listLeB_trans as bs cs h1 h2
      · simp only [listLeB, if_pos rfl] at h1
        simpa [listLeB, hbc] using h2
    · by_cases hbc : b = c
      · subst hbc
        simpa [listLeB, hab] using h1
      · simp only [listLeB, if_neg hab, decide_eq_true_eq] at h1
        simp only [listLeB, if_neg hbc, decide_eq_true_eq] at h2
        have hac : a.toNat < c.toNat := Nat.lt_trans h1 h2
        have hane : a ≠ c := fun he => by
          subst he
          exact Nat.lt_irrefl _ hac
        simp [listLeB, hane, hac]

theorem listLeB_antisymm : ∀ as bs, listLeB as bs = true →
    listLeB bs as = true → as = bs
  | [], [], _, _ => rfl
  | [], _ :: _, _, h2 => by simp [listLeB] at h2
  | _ :: _, [], h1, _ => by simp [listLeB] at h1
  | a :: as, b :: bs, h1, h2 => by
    by_cases hab : a = b
    · subst hab
      simp only [listLeB, if_pos rfl] at h1 h2
      rw [listLeB_antisymm as bs h1 h2]
    · simp only [listLeB, if_neg hab, decide_eq_true_eq] at h1
      simp only [listLeB, if_neg (Ne.symm hab), decide_eq_true_eq] at h2
      exact absurd (Nat.lt_trans h1 h2) (Nat.lt_irrefl _)

theorem jsStrLe_refl (s : String) : jsStrLe s s = true :=
  listLeB_refl s.data

theorem jsStrLe_total (s t : String) :
    jsStrLe s t = true ∨ jsStrLe t s = true :=
  listLeB_total s.data t.data

theorem jsStrLe_trans (s t u : String) (h1 : jsStrLe s t = true)
    (h2 : jsStrLe t u = true) : jsStrLe s u = true :=
  listLeB_trans s.data t.data u.data h1 h2

theorem jsStrLe_antisymm (s t : String) (h1 : jsStrLe s t = true)
    (h2 : jsStrLe t s = true) : s = t := by
  cases s with
  | mk ds =>
    cases t with
    | mk dt => exact congrArg String.mk (listLeB_antisymm ds dt h1 h2)

instance : IsTotal String (fun a b => jsStrLe a b = true) :=
  ⟨jsStrLe_total⟩

instance : IsTrans String (fun a b => jsStrLe a b = true) :=
  ⟨jsStrLe_trans⟩

instance : IsAntisymm String (fun a b => jsStrLe a b = true) :=
  ⟨jsStrLe_antisymm⟩

theorem orderedInsertB_eq (a : String) (l : List String) :
    orderedInsertB a l =
      List.orderedInsert (fun x y => jsStrLe x y = true) a l := by
  induction l with
  | nil => rfl
  | cons b l ih =>
    by_cases h : jsStrLe a b = true <;>
      simp [orderedInsertB, List.orderedInsert, h, ih]

theorem insertionSortB_eq (l : List String) :
    insertionSortB l =
      List.insertionSort (fun x y => jsStrLe x y = true) l := by
  induction l with
  | nil => rfl
  | cons a l ih =>
    simp [insertionSortB, List.insertionSort, orderedInsertB_eq, ih]

theorem insertionSortB_append_max (A : List String) (ts : String)
    (hmax : ∀ a ∈ A, jsStrLe a ts = true) :
    insertionSortB (A ++ [ts]) = insertionSortB A ++ [ts] := by
  rw [insertionSortB_eq, insertionSortB_eq]
  apply List.eq_of_perm_of_sorted
    (r := fun x y => jsStrLe x y = true)
  · refine (List.perm_insertionSort _ _).trans ?_
    exact ((List.perm_insertionSort _ A).symm).append_right [ts]
  · exact List.sorted_insertionSort _ _
  · show List.Pairwise _ _
    rw [List.pairwise_append]
    refine ⟨List.sorted_insertionSort _ _, List.pairwise_singleton _ _, ?_⟩
    intro a ha b hb
    rw [List.mem_singleton] at hb
    subst hb
    exact hmax a ((List.perm_insertionSort _ A).mem_iff.mp ha)

theorem strStartsWith_append (p t : String) :
    strStartsWith (p ++ t) p = true := by
  cases p with
  | mk dp =>
    cases t with
    | mk dt =>
      show dp.isPrefixOf (dp ++ dt) = true
      rw [List.isPrefixOf_iff_prefix]
      exact ⟨dt, rfl⟩

theorem strDrop_append (p t : String) :
    strDrop (p ++ t) (strLength p) = t := by
  cases p with
  | mk dp =>
    cases t with
    | mk dt =>
      show String.mk ((dp ++ dt).drop dp.length) = String.mk dt
      rw [List.drop_left]

/-- Claim C6 as stated is false on the code at an explicit input: with an
empty store there is no live history for the voice, so saveMemory is a no-op
and the freshly created timestamp does not appear in getMemoryList at all,
let alone as its first entry. -/
theorem memory_snapshot_counterexample :
    saveMemory "v" "2025-01-01T00:00:00.000Z" ([] : Storage) =
      ([] : Storage) ∧
    getMemoryList "v"
        (saveMemory "v" "2025-01-01T00:00:00.000Z" ([] : Storage)) = [] :=
  ⟨rfl, rfl⟩

/-- Claim C6 (amended): provided the voice has a live (truthy) stored history
and the snapshot timestamp is lexicographically greater than every listed
snapshot timestamp of that voice (as ISO timestamps of successive saves are),
snapshot followed by list returns the new timestamp as the first (newest)
entry with the previous listing unchanged after it; restore of that timestamp
followed by load returns exactly the history content that was live at the
moment of the snapshot; and restore writes only the live key, leaving every
other key — in particular all other snapshot slots — unchanged. -/
theorem memory_snapshot_list_restore (voiceName ts : String)
    (cur : StoredString) (st : Storage)
    (hcur : getItem st (getStorageKey voiceName) = some cur)
    (htr : jsTruthyStored cur = true)
    (hmax : ∀ t ∈ getMemoryList voiceName st, jsStrLe ts t = false) :
    getMemoryList voiceName (saveMemory voiceName ts st) =
      ts :: getMemoryList voiceName st ∧
    loadChatHistory voiceName
        (loadMemory voiceName ts (saveMemory voiceName ts st)) =
      loadChatHistory voiceName st ∧
    (∀ k, k ≠ getStorageKey voiceName →
      getItem (loadMemory voiceName ts (saveMemory voiceName ts st)) k =
        getItem (saveMemory voiceName ts st) k) := by
  have hsm : saveMemory voiceName ts st =
      setItem st (memoryKey voiceName ts) cur := by
    simp only [saveMemory, hcur, htr, if_true]
  have hmemA : ∀ a, a ∈ ((st.map Prod.fst).filter
      (fun k => strStartsWith k (memoryKeyBase voiceName))).map
        (fun k => strDrop k (strLength (memoryKeyBase voiceName))) →
      a ∈ getMemoryList voiceName st := by
    intro a ha
    unfold getMemoryList
    rw [List.mem_reverse, insertionSortB_eq]
    exact (List.perm_insertionSort _ _).mem_iff.mpr ha
  have hfresh : memoryKey voiceName ts ∉ st.map Prod.fst := by
    intro hmem
    have hts : ts ∈ getMemoryList voiceName st := by
      apply hmemA
      apply List.mem_map.mpr
      refine ⟨memoryKey voiceName ts, List.mem_filter.mpr ⟨hmem, ?_⟩, ?_⟩
      · exact strStartsWith_append _ _
      · exact strDrop_append _ _
    exact Bool.noConfusion ((hmax ts hts).symm.trans (jsStrLe_refl ts))
  have hkeys : (setItem st (memoryKey voiceName ts) cur).map Prod.fst =
      st.map Prod.fst ++ [memoryKey voiceName ts] :=
    setItem_keys_of_not_mem st _ cur hfresh
  have hget : getItem (saveMemory voiceName ts st)
      (memoryKey voiceName ts) = some cur := by
    rw [hsm]
    exact getItem_setItem_self st _ cur
  have hlm : loadMemory voiceName ts (saveMemory voiceName ts st) =
      setItem (saveMemory voiceName ts st) (getStorageKey voiceName) cur := by
    simp only [loadMemory, hget, htr, if_true]
  refine ⟨?_, ?_, ?_⟩
  · rw [hsm]
    unfold getMemoryList
    rw [hkeys, List.filter_append, List.map_append]
    have hfk : List.filter
        (fun k => strStartsWith k (memoryKeyBase voiceName))
        [memoryKey voiceName ts] = [memoryKey voiceName ts] := by
      simp [List.filter, memoryKey, strStartsWith_append]
    rw [hfk]
    have hmk : List.map
        (fun k => strDrop k (strLength (memoryKeyBase voiceName)))
        [memoryKey voiceName ts] = [ts] := by
      simp [memoryKey, strDrop_append]
    rw [hmk]
    rw [insertionSortB_append_max _ ts ?hle]
    case hle =>
      intro a ha
      have ha' := hmemA a ha
      rcases jsStrLe_total a ts with h | h
      · exact h
      · exact absurd ((hmax a ha').symm.trans h) (by simp)
    rw [List.reverse_append]
    rfl
  · rw [hlm]
    unfold loadChatHistory
    rw [getItem_setItem_self, hcur]
  · intro k hk
    rw [hlm]
    exact getItem_setItem_ne _ _ _ _ hk

theorem memory_snapshot_list_restore_witness :
    getMemoryList "v"
        (saveMemory "v" "s2"
          [("chatHistory_v", StoredString.jsonVal (Json.arr [])),
           ("chatHistory_v_memory_s1",
             StoredString.jsonVal (Json.arr []))]) =
      "s2" :: getMemoryList "v"
        [("chatHistory_v", StoredString.jsonVal (Json.arr [])),
         ("chatHistory_v_memory_s1", StoredString.jsonVal (Json.arr []))] ∧
    loadChatHistory "v"
        (loadMemory "v" "s2"
          (saveMemory "v" "s2"
            [("chatHistory_v", StoredString.jsonVal (Json.arr [])),
             ("chatHistory_v_memory_s1",
               StoredString.jsonVal (Json.arr []))])) =
      loadChatHistory "v"
        [("chatHistory_v", StoredString.jsonVal (Json.arr [])),
         ("chatHistory_v_memory_s1", StoredString.jsonVal (Json.arr []))] ∧
    getItem
        (loadMemory "v" "s2"
          (saveMemory "v" "s2"
            [("chatHistory_v", StoredString.jsonVal (Json.arr [])),
             ("chatHistory_v_memory_s1",
               StoredString.jsonVal (Json.arr []))]))
        "chatHistory_v_memory_s1" =
      getItem
        (saveMemory "v" "s2"
          [("chatHistory_v", StoredString.jsonVal (Json.arr [])),
           ("chatHistory_v_memory_s1",
             StoredString.jsonVal (Json.arr []))])
        "chatHistory_v_memory_s1" := by
  have h := memory_snapshot_list_restore "v" "s2"
    (StoredString.jsonVal (Json.arr []))
    [("chatHistory_v", StoredString.jsonVal (Json.arr [])),
     ("chatHistory_v_memory_s1", StoredString.jsonVal (Json.arr []))]
    rfl rfl (by decide)
  exact ⟨h.1, h.2.1, h.2.2 "chatHistory_v_memory_s1" (by decide)⟩
